import Mathlib

/-!
Verification of the YouTube Notes API backend (`src/main.py`).

The program is a FastAPI service over a single Postgres table `notes`.
Each handler executes one parameterized SQL statement.  We shallowly embed
the data model and the seven handlers:

* a row of the `notes` table is a `Note`; the table is a `List Note`
  inside a `DB` state that also carries the `SERIAL` counter (`nextId`)
  and the server clock used for `CURRENT_TIMESTAMP` (`now`);
* `timestamp FLOAT` is modelled as `Rat` (only order comparisons matter),
  `created_at TIMESTAMP` as `Nat`;
* `ORDER BY` is modelled by `List.insertionSort` on the relevant key
  (SQL leaves tie order unspecified; a deterministic stable sort is one
  refinement of it, and the properties proved do not depend on ties);
* Postgres `ILIKE` pattern matching (wildcards `%` and `_`, escape `\`,
  case-insensitive via ASCII lowercasing) is embedded as `ilikeMatch`;
* the `DATABASE_URL` configuration check of `get_db_pool` is embedded over
  an abstract environment (`Option String`).
-/

/-- A row of the `notes` table (`id SERIAL PRIMARY KEY, video_id VARCHAR(20),
timestamp FLOAT, note_text TEXT, created_at TIMESTAMP`). -/
structure Note where
  id : Nat
  video_id : String
  timestamp : Rat
  note_text : String
  created_at : Nat
deriving DecidableEq

/-- Database state: the `notes` table plus the `SERIAL` sequence for `id`
and the clock supplying `CURRENT_TIMESTAMP` for `created_at`. -/
structure DB where
  notes : List Note
  nextId : Nat
  now : Nat
deriving DecidableEq

/-- Row of the `/videos/recent` aggregate:
`SELECT video_id, COUNT(*) as note_count, MAX(created_at) as last_note_at`. -/
structure VideoSummary where
  video_id : String
  note_count : Nat
  last_note_at : Nat
deriving DecidableEq

/-- Postgres `ILIKE` pattern matching, embedded over character lists:
`%` matches any sequence, `_` matches any single character, `\c` matches
the literal character `c`; ordinary characters compare case-insensitively
(ASCII lowercasing).  A pattern ending in a lone `\` matches nothing
(Postgres raises an error there; the patterns built by the code always end
in `%`, so this case is unreachable for them). -/
def ilikeMatch : List Char → List Char → Bool
  | [], t => t.isEmpty
  | '%' :: ps, t =>
      (List.range (t.length + 1)).any (fun i => ilikeMatch ps (t.drop i))
  | '_' :: _, [] => false
  | '_' :: ps, _ :: ts => ilikeMatch ps ts
  | '\\' :: _ :: _, [] => false
  | '\\' :: p :: ps, c :: ts => (p.toLower == c.toLower) && ilikeMatch ps ts
  | ['\\'], _ => false
  | _ :: _, [] => false
  | p :: ps, c :: ts => (p.toLower == c.toLower) && ilikeMatch ps ts

/-- `POST /notes` (`create_note`): `INSERT INTO notes (video_id, timestamp,
note_text) VALUES ($1,$2,$3) RETURNING id, video_id, timestamp, note_text,
created_at`.  The server assigns `id` from the sequence and `created_at`
from the clock, and returns the persisted row. -/
def create_note (db : DB) (video_id : String) (timestamp : Rat)
    (note_text : String) : Note × DB :=
  let n : Note := ⟨db.nextId, video_id, timestamp, note_text, db.now⟩
  (n, { db with notes := db.notes ++ [n], nextId := db.nextId + 1 })

/-- `GET /notes/{video_id}` (`get_notes`): `SELECT ... FROM notes WHERE
video_id = $1 ORDER BY timestamp ASC`. -/
def get_notes (db : DB) (video_id : String) : List Note :=
  List.insertionSort (fun a b : Note => a.timestamp ≤ b.timestamp)
    (db.notes.filter (fun n => n.video_id == video_id))

/-- `GET /notes/search/{query}` (`search_notes`): `SELECT ... FROM notes
WHERE note_text ILIKE $1 ORDER BY created_at DESC` with `$1 = '%' + query
+ '%'` (the query is interpolated unescaped). -/
def search_notes (db : DB) (query : String) : List Note :=
  List.insertionSort (fun a b : Note => b.created_at ≤ a.created_at)
    (db.notes.filter
      (fun n => ilikeMatch ('%' :: query.data ++ ['%']) n.note_text.data))

/-- `DELETE /notes/{note_id}` (`delete_note`): `DELETE FROM notes WHERE
id = $1`; raises 404 ("Note not found") when the command tag is `DELETE 0`,
i.e. when zero rows were affected, otherwise reports success. -/
def delete_note (db : DB) (note_id : Nat) : Except String String × DB :=
  let remaining := db.notes.filter (fun n => !(n.id == note_id))
  let db' := { db with notes := remaining }
  if db.notes.length - remaining.length = 0 then
    (Except.error "Note not found", db')
  else
    (Except.ok "Note deleted successfully", db')

/-- `PUT /notes/{note_id}` (`update_note`): `UPDATE notes SET note_text = $1
WHERE id = $2 RETURNING id, video_id, timestamp, note_text, created_at`;
`fetchrow` yields the first returned row, and a missing row raises 404
("Note not found"). -/
def update_note (db : DB) (note_id : Nat) (note_text : String) :
    Except String Note × DB :=
  let upd := db.notes.map (fun n =>
    if n.id == note_id then { n with note_text := note_text } else n)
  let db' := { db with notes := upd }
  match db.notes.find? (fun n => n.id == note_id) with
  | none => (Except.error "Note not found", db')
  | some n => (Except.ok { n with note_text := note_text }, db')

/-- The per-`video_id` aggregate row computed by `GET /videos/recent`:
`COUNT(*)` and `MAX(created_at)` over the group. -/
def videoGroup (db : DB) (v : String) : VideoSummary :=
  let g := db.notes.filter (fun n => n.video_id == v)
  ⟨v, g.length, (g.map Note.created_at).foldl Nat.max 0⟩

/-- `GET /videos/recent` (`get_recent_videos`): `SELECT video_id, COUNT(*)
as note_count, MAX(created_at) as last_note_at FROM notes GROUP BY video_id
ORDER BY last_note_at DESC LIMIT 20`. -/
def get_recent_videos (db : DB) : List VideoSummary :=
  let vids := (db.notes.map Note.video_id).dedup
  (List.insertionSort
    (fun a b : VideoSummary => b.last_note_at ≤ a.last_note_at)
    (vids.map (videoGroup db))).take 20

/-- `get_db_pool`: returns the memoized global pool when present; otherwise
reads `DATABASE_URL` from the environment and fails (`ValueError`) when it
is absent or empty (`if not DATABASE_URL`); otherwise creates the pool
(modelled as the connection string itself). -/
def get_db_pool (env : Option String) (db_pool : Option String) :
    Except String String :=
  match db_pool with
  | some p => Except.ok p
  | none =>
    match env with
    | none => Except.error "DATABASE_URL not found in environment variables"
    | some url =>
      if url = "" then
        Except.error "DATABASE_URL not found in environment variables"
      else
        Except.ok url

/-- The `startup` event handler: obtains the pool via `get_db_pool` (then
runs idempotent DDL, which does not touch table contents).  An error here
aborts startup, so the process does not serve traffic. -/
def startup (env : Option String) (db_pool : Option String) :
    Except String String :=
  get_db_pool env db_pool

/-- Requests of the API, one constructor per handler that touches the
`notes` table. -/
inductive Request where
  | create (video_id : String) (timestamp : Rat) (note_text : String)
  | list (video_id : String)
  | search (query : String)
  | delete (note_id : Nat)
  | update (note_id : Nat) (note_text : String)
  | recent
deriving DecidableEq

/-- Responses of the API. -/
inductive Response where
  | note (n : Note)
  | notes (l : List Note)
  | message (m : String)
  | summaries (l : List VideoSummary)
  | notFound (detail : String)
deriving DecidableEq

/-- One request/response step of the service: each handler runs its single
SQL statement against the current state and shapes the response. -/
def step (db : DB) : Request → Response × DB
  | Request.create v ts txt =>
      let (n, db') := create_note db v ts txt
      (Response.note n, db')
  | Request.list v => (Response.notes (get_notes db v), db)
  | Request.search q => (Response.notes (search_notes db q), db)
  | Request.delete i =>
      match delete_note db i with
      | (Except.error e, db') => (Response.notFound e, db')
      | (Except.ok m, db') => (Response.message m, db')
  | Request.update i txt =>
      match update_note db i txt with
      | (Except.error e, db') => (Response.notFound e, db')
      | (Except.ok n, db') => (Response.note n, db')
  | Request.recent => (Response.summaries (get_recent_videos db), db)

/-- ASCII-lowercasing of a character list (the case folding relevant to
`ILIKE` on the ASCII video-note data). -/
def lowerL (s : List Char) : List Char := s.map Char.toLower

/-- Executable check that `q` occurs as a contiguous sublist of `t`. -/
def hasSubB (q t : List Char) : Bool :=
  (List.range (t.length + 1)).any (fun i => (t.drop i).take q.length == q)

/-- Specification-side predicate: `q` occurs in `t` as a case-insensitive
substring. -/
def ciContains (q t : List Char) : Prop :=
  ∃ u v, lowerL t = u ++ lowerL q ++ v

theorem hasSubB_iff (q t : List Char) :
    hasSubB q t = true ↔ ∃ u v, t = u ++ q ++ v := by
  unfold hasSubB
  rw [List.any_eq_true]
  constructor
  · rintro ⟨i, _, hq⟩
    rw [beq_iff_eq] at hq
    refine ⟨t.take i, (t.drop i).drop q.length, ?_⟩
    conv_lhs => rw [← List.take_append_drop i t]
    rw [List.append_assoc]
    congr 1
    conv_lhs => rw [← List.take_append_drop q.length (t.drop i)]
    rw [hq]
  · rintro ⟨u, v, rfl⟩
    refine ⟨u.length, ?_, ?_⟩
    · rw [List.mem_range]
      simp [List.length_append]
      omega
    · rw [beq_iff_eq, List.append_assoc, List.drop_left, List.take_left]

theorem ciContains_iff (q t : List Char) :
    ciContains q t ↔ hasSubB (lowerL q) (lowerL t) = true := by
  rw [hasSubB_iff]
  rfl

instance (q t : List Char) : Decidable (ciContains q t) :=
  decidable_of_iff _ (ciContains_iff q t).symm

/-! ### Lemmas about `ILIKE` matching -/

/-- Unfolding a pattern that starts with `%`. -/
theorem ilikeMatch_pct_unfold (ps t : List Char) :
    ilikeMatch ('%' :: ps) t =
      (List.range (t.length + 1)).any (fun i => ilikeMatch ps (t.drop i)) := by
  simp [ilikeMatch]

/-- Unfolding a pattern that starts with an ordinary character, against a
nonempty text. -/
theorem ilikeMatch_plain_unfold (p : Char) (hp1 : p ≠ '%') (hp2 : p ≠ '_')
    (hp3 : p ≠ '\\') (ps : List Char) (c : Char) (ts : List Char) :
    ilikeMatch (p :: ps) (c :: ts) =
      ((p.toLower == c.toLower) && ilikeMatch ps ts) := by
  simp [ilikeMatch, hp1, hp2, hp3]

/-- Unfolding a pattern that starts with an ordinary character, against the
empty text. -/
theorem ilikeMatch_plain_nil (p : Char) (hp1 : p ≠ '%') (hp2 : p ≠ '_')
    (hp3 : p ≠ '\\') (ps : List Char) :
    ilikeMatch (p :: ps) [] = false := by
  simp [ilikeMatch, hp1, hp2, hp3]

/-- The pattern `%` alone matches every text. -/
theorem ilikeMatch_pct (t : List Char) : ilikeMatch ['%'] t = true := by
  rw [ilikeMatch_pct_unfold]
  rw [List.any_eq_true]
  refine ⟨t.length, ?_, ?_⟩
  · rw [List.mem_range]
    omega
  · simp [List.drop_length, ilikeMatch]

/-- Matching a pattern starting with `%` means some split point works. -/
theorem ilikeMatch_pct_cons (ps t : List Char) :
    ilikeMatch ('%' :: ps) t = true ↔
      ∃ i, i < t.length + 1 ∧ ilikeMatch ps (t.drop i) = true := by
  rw [ilikeMatch_pct_unfold, List.any_eq_true]
  simp [List.mem_range]

/-- A wildcard-free pattern followed by `%` matches `t` exactly when the
pattern is a case-insensitive initial segment of `t`. -/
theorem ilikeMatch_plain_pct (q : List Char)
    (hq : ∀ c ∈ q, c ≠ '%' ∧ c ≠ '_' ∧ c ≠ '\\') (t : List Char) :
    ilikeMatch (q ++ ['%']) t = true ↔ lowerL (t.take q.length) = lowerL q := by
  induction q generalizing t with
  | nil =>
    simpa [lowerL] using ilikeMatch_pct t
  | cons p ps ih =>
    obtain ⟨hp1, hp2, hp3⟩ := hq p (List.mem_cons_self p ps)
    have hq' : ∀ c ∈ ps, c ≠ '%' ∧ c ≠ '_' ∧ c ≠ '\\' :=
      fun c hc => hq c (List.mem_cons_of_mem p hc)
    cases t with
    | nil =>
      rw [List.cons_append, ilikeMatch_plain_nil p hp1 hp2 hp3]
      simp [lowerL]
    | cons c ts =>
      rw [List.cons_append, ilikeMatch_plain_unfold p hp1 hp2 hp3]
      simp only [Bool.and_eq_true, beq_iff_eq, ih hq' ts,
        List.length_cons, List.take_succ_cons, lowerL, List.map_cons,
        List.cons.injEq]
      tauto

/-- The pattern `'%' ++ q ++ '%'` built by `search_notes` matches `t`
exactly when `q` occurs in `t` as a case-insensitive substring — provided
`q` contains no `ILIKE` metacharacter. -/
theorem ilikeMatch_pattern_iff (q t : List Char)
    (hq : ∀ c ∈ q, c ≠ '%' ∧ c ≠ '_' ∧ c ≠ '\\') :
    ilikeMatch ('%' :: q ++ ['%']) t = true ↔ ciContains q t := by
  rw [ciContains_iff]
  unfold hasSubB
  rw [List.cons_append, ilikeMatch_pct_cons, List.any_eq_true]
  constructor
  · rintro ⟨i, hi, h⟩
    rw [ilikeMatch_plain_pct q hq] at h
    refine ⟨i, ?_, ?_⟩
    · rw [List.mem_range, lowerL, List.length_map]
      exact hi
    · rw [beq_iff_eq]
      calc ((lowerL t).drop i).take (lowerL q).length
          = lowerL ((t.drop i).take q.length) := by
            rw [lowerL, lowerL, lowerL, List.length_map, List.map_take,
              List.map_drop]
        _ = lowerL q := h
  · rintro ⟨i, hi, h⟩
    rw [List.mem_range, lowerL, List.length_map] at hi
    rw [beq_iff_eq] at h
    refine ⟨i, hi, ?_⟩
    rw [ilikeMatch_plain_pct q hq]
    calc lowerL ((t.drop i).take q.length)
        = ((lowerL t).drop i).take (lowerL q).length := by
          rw [lowerL, lowerL, lowerL, List.length_map, List.map_take,
            List.map_drop]
      _ = lowerL q := h

/-! ### Order instances for the sort keys used by the queries -/

instance : IsTotal Note (fun a b : Note => a.timestamp ≤ b.timestamp) :=
  ⟨fun a b => le_total a.timestamp b.timestamp⟩

instance : IsTrans Note (fun a b : Note => a.timestamp ≤ b.timestamp) :=
  ⟨fun _ _ _ h1 h2 => le_trans h1 h2⟩

instance : IsTotal Note (fun a b : Note => b.created_at ≤ a.created_at) :=
  ⟨fun a b => le_total b.created_at a.created_at⟩

instance : IsTrans Note (fun a b : Note => b.created_at ≤ a.created_at) :=
  ⟨fun _ _ _ h1 h2 => le_trans h2 h1⟩

instance :
    IsTotal VideoSummary
      (fun a b : VideoSummary => b.last_note_at ≤ a.last_note_at) :=
  ⟨fun a b => le_total b.last_note_at a.last_note_at⟩

instance :
    IsTrans VideoSummary
      (fun a b : VideoSummary => b.last_note_at ≤ a.last_note_at) :=
  ⟨fun _ _ _ h1 h2 => le_trans h2 h1⟩

/-! ### Generic helper lemmas -/

/-- The seed of a `foldl Nat.max` bounds the result from below. -/
theorem seed_le_foldl_max (l : List Nat) (a : Nat) : a ≤ l.foldl Nat.max a := by
  induction l generalizing a with
  | nil => exact le_refl a
  | cons b l ih => exact le_trans (Nat.le_max_left a b) (ih (Nat.max a b))

/-- Every element of a list is bounded by a `foldl Nat.max` over it. -/
theorem le_foldl_max (l : List Nat) (a : Nat) :
    ∀ x ∈ l, x ≤ l.foldl Nat.max a := by
  induction l generalizing a with
  | nil => intro x hx; cases hx
  | cons b l ih =>
    intro x hx
    rcases List.mem_cons.mp hx with rfl | hx
    · exact le_trans (Nat.le_max_right a x) (seed_le_foldl_max l (Nat.max a x))
    · exact ih (Nat.max a b) x hx

/-- A `foldl Nat.max` is either the seed or an element of the list. -/
theorem foldl_max_mem (l : List Nat) (a : Nat) :
    l.foldl Nat.max a = a ∨ l.foldl Nat.max a ∈ l := by
  induction l generalizing a with
  | nil => exact Or.inl rfl
  | cons b l ih =>
    rcases ih (Nat.max a b) with h | h
    · rw [List.foldl_cons, h]
      rcases Nat.le_total a b with h2 | h2
      · refine Or.inr ?_
        have hb : Nat.max a b = b := by
          unfold Nat.max
          exact max_eq_right h2
        rw [hb]
        exact List.mem_cons_self b l
      · refine Or.inl ?_
        unfold Nat.max
        exact max_eq_left h2
    · exact Or.inr (List.mem_cons_of_mem b h)

/-- In a list whose elements have pairwise distinct `id`s, two members with
equal `id` are the same row. -/
theorem mem_id_unique {l : List Note}
    (hu : l.Pairwise (fun a b : Note => a.id ≠ b.id)) {m n : Note}
    (hm : m ∈ l) (hn : n ∈ l) (h : m.id = n.id) : m = n := by
  induction l with
  | nil => cases hm
  | cons a l ih =>
    rcases List.pairwise_cons.mp hu with ⟨ha, hl⟩
    rcases List.mem_cons.mp hm with h1 | h1
    · rcases List.mem_cons.mp hn with h2 | h2
      · rw [h1, h2]
      · subst h1
        exact absurd h (ha n h2)
    · rcases List.mem_cons.mp hn with h2 | h2
      · subst h2
        exact absurd h.symm (ha m h1)
      · exact ih hl h1 h2

/-- The pattern `%%` (empty query) matches every text. -/
theorem ilikeMatch_pct_pct (t : List Char) :
    ilikeMatch ('%' :: '%' :: []) t = true := by
  rw [ilikeMatch_pct_unfold, List.any_eq_true]
  refine ⟨0, ?_, ?_⟩
  · rw [List.mem_range]
    omega
  · simpa using ilikeMatch_pct t

/-! ### Claim theorems -/

/-- C1: for every state of the notes table and every `video_id`, `get_notes`
returns exactly the notes whose `video_id` equals the given one (as a
multiset), sorted non-decreasing by `timestamp`; when no note matches it
returns the empty list, and the handler answers with a notes response, not
an error. -/
theorem get_notes_spec (db : DB) (vid : String) :
    List.Perm (get_notes db vid)
      (db.notes.filter (fun n => n.video_id == vid)) ∧
    List.Sorted (fun a b : Note => a.timestamp ≤ b.timestamp)
      (get_notes db vid) ∧
    ((∀ n ∈ db.notes, n.video_id ≠ vid) → get_notes db vid = []) ∧
    (step db (Request.list vid)).1 = Response.notes (get_notes db vid) := by
  refine ⟨List.perm_insertionSort _ _, List.sorted_insertionSort _ _, ?_, rfl⟩
  intro h
  unfold get_notes
  have hf : db.notes.filter (fun n => n.video_id == vid) = [] := by
    rw [List.filter_eq_nil_iff]
    intro a ha
    simpa using h a ha
  rw [hf]
  rfl

/-- C6: creating a note for a `video_id` that has no notes yet and then
listing notes for that `video_id` returns exactly one entry, equal
field-for-field to the note returned by the create operation. -/
theorem create_then_list (db : DB) (v : String) (ts : Rat) (txt : String)
    (h : ∀ n ∈ db.notes, n.video_id ≠ v) :
    get_notes (create_note db v ts txt).2 v =
      [(create_note db v ts txt).1] := by
  unfold get_notes create_note
  rw [List.filter_append]
  have h1 : db.notes.filter (fun n => n.video_id == v) = [] := by
    rw [List.filter_eq_nil_iff]
    intro a ha
    simpa using h a ha
  rw [h1]
  simp [List.insertionSort, List.orderedInsert]

/-- Witness for C6 at a concrete input: an empty table, then one create. -/
theorem create_then_list_witness :
    get_notes (create_note ⟨[], 1, 5⟩ "abc123" 42 "intro starts here").2
        "abc123" =
      [(create_note ⟨[], 1, 5⟩ "abc123" 42 "intro starts here").1] :=
  create_then_list ⟨[], 1, 5⟩ "abc123" 42 "intro starts here"
    (fun n hn => absurd hn (List.not_mem_nil n))

/-- C8: when `DATABASE_URL` is absent from the environment, startup fails
with the `ValueError`, and `get_db_pool` (called by every handler, with no
pool yet created) cannot produce a connection pool either, so the process
serves no traffic. -/
theorem missing_database_url :
    startup none none =
      Except.error "DATABASE_URL not found in environment variables" ∧
    get_db_pool none none =
      Except.error "DATABASE_URL not found in environment variables" :=
  ⟨rfl, rfl⟩

/-- C9: searching with the empty query builds the pattern `%%`, which
matches every row: the result is the whole table, ordered descending by
`created_at`. -/
theorem search_notes_empty_query (db : DB) :
    List.Perm (search_notes db "") db.notes ∧
    List.Sorted (fun a b : Note => b.created_at ≤ a.created_at)
      (search_notes db "") := by
  constructor
  · have hfilter :
        db.notes.filter
          (fun n => ilikeMatch ('%' :: "".data ++ ['%']) n.note_text.data) =
        db.notes := by
      rw [List.filter_eq_self]
      intro a _
      exact ilikeMatch_pct_pct a.note_text.data
    unfold search_notes
    refine (List.perm_insertionSort _ _).trans ?_
    rw [hfilter]
  · exact List.sorted_insertionSort _ _

/-- C10: the list, search and recent-videos handlers are read-only — the
table state after each of them is exactly the state before. -/
theorem read_only_handlers (db : DB) (vid q : String) :
    (step db (Request.list vid)).2 = db ∧
    (step db (Request.search q)).2 = db ∧
    (step db Request.recent).2 = db :=
  ⟨rfl, rfl, rfl⟩

/-! ### Unfolding helpers for update and delete -/

/-- The state after `update_note` always carries the mapped table. -/
theorem update_note_snd (db : DB) (nid : Nat) (txt : String) :
    (update_note db nid txt).2 =
      { db with notes := db.notes.map (fun n =>
          if n.id == nid then { n with note_text := txt } else n) } := by
  unfold update_note
  cases db.notes.find? (fun n => n.id == nid) <;> rfl

/-- The response of `update_note` when the `UPDATE ... RETURNING` query
yields a first row. -/
theorem update_note_fst_of_find (db : DB) (nid : Nat) (txt : String)
    (m : Note) (hm : db.notes.find? (fun n => n.id == nid) = some m) :
    (update_note db nid txt).1 = Except.ok { m with note_text := txt } := by
  unfold update_note
  rw [hm]

/-- The response of `update_note` when no row matches. -/
theorem update_note_fst_of_none (db : DB) (nid : Nat) (txt : String)
    (hm : db.notes.find? (fun n => n.id == nid) = none) :
    (update_note db nid txt).1 = Except.error "Note not found" := by
  unfold update_note
  rw [hm]

/-- The state after `delete_note` always carries the filtered table. -/
theorem delete_note_snd (db : DB) (nid : Nat) :
    (delete_note db nid).2 =
      { db with notes := db.notes.filter (fun n => !(n.id == nid)) } := by
  unfold delete_note
  dsimp only
  split <;> rfl

/-- The `DELETE` affects zero rows exactly when no row has the given id. -/
theorem filter_keep_iff (l : List Note) (nid : Nat) :
    l.length - (l.filter (fun n => !(n.id == nid))).length = 0 ↔
      ∀ n ∈ l, n.id ≠ nid := by
  constructor
  · intro h n hn
    have hle := List.length_filter_le (fun n => !(n.id == nid)) l
    have hlen : (l.filter (fun n => !(n.id == nid))).length = l.length := by
      omega
    have heq := List.Sublist.eq_of_length (List.filter_sublist l) hlen
    have hp := (List.filter_eq_self.mp heq) n hn
    simpa using hp
  · intro h
    have hself : l.filter (fun n => !(n.id == nid)) = l := by
      rw [List.filter_eq_self]
      intro a ha
      simpa using h a ha
    rw [hself]
    omega

/-- C3: when a row with the given id exists, the update succeeds and changes
only the `note_text` field of the matching row(s): every row keeps its
position, `id`, `video_id`, `timestamp` and `created_at`, and rows whose id
differs keep their `note_text` as well. -/
theorem update_note_frame (db : DB) (nid : Nat) (txt : String)
    (hpres : ∃ n ∈ db.notes, n.id = nid) :
    (∃ r, (update_note db nid txt).1 = Except.ok r) ∧
    (update_note db nid txt).2.notes.length = db.notes.length ∧
    ∀ (i : Nat) (old : Note), db.notes[i]? = some old →
      ∃ new : Note, (update_note db nid txt).2.notes[i]? = some new ∧
        new.id = old.id ∧ new.video_id = old.video_id ∧
        new.timestamp = old.timestamp ∧ new.created_at = old.created_at ∧
        (old.id ≠ nid → new.note_text = old.note_text) ∧
        (old.id = nid → new.note_text = txt) := by
  obtain ⟨n0, hn0, hid0⟩ := hpres
  have hfind : (db.notes.find? (fun n => n.id == nid)).isSome := by
    rw [List.find?_isSome]
    exact ⟨n0, hn0, by simpa using hid0⟩
  obtain ⟨m, hm⟩ := Option.isSome_iff_exists.mp hfind
  refine ⟨⟨{ m with note_text := txt },
    update_note_fst_of_find db nid txt m hm⟩, ?_, ?_⟩
  · rw [update_note_snd]
    exact List.length_map _ _
  · intro i old hold
    rw [update_note_snd]
    have hmap :
        ({ db with notes := db.notes.map (fun n =>
            if n.id == nid then { n with note_text := txt } else n) } :
          DB).notes[i]? =
        some (if old.id == nid then { old with note_text := txt } else old) := by
      rw [List.getElem?_map, hold]
      rfl
    refine ⟨_, hmap, ?_⟩
    by_cases h : old.id = nid
    · have hb : (old.id == nid) = true := by simpa using h
      simp [hb, h]
    · have hb : (old.id == nid) = false := by simpa using h
      simp [hb, h]

/-- Witness for C3 at a concrete one-row table. -/
theorem update_note_frame_witness :
    (∃ n ∈ (⟨[⟨1, "v", 0, "old", 7⟩], 2, 9⟩ : DB).notes, n.id = 1) ∧
    ((∃ r, (update_note ⟨[⟨1, "v", 0, "old", 7⟩], 2, 9⟩ 1 "new").1 =
        Except.ok r) ∧
      (update_note ⟨[⟨1, "v", 0, "old", 7⟩], 2, 9⟩ 1 "new").2.notes.length =
        (⟨[⟨1, "v", 0, "old", 7⟩], 2, 9⟩ : DB).notes.length ∧
      ∀ (i : Nat) (old : Note),
        (⟨[⟨1, "v", 0, "old", 7⟩], 2, 9⟩ : DB).notes[i]? = some old →
        ∃ new : Note,
          (update_note ⟨[⟨1, "v", 0, "old", 7⟩], 2, 9⟩ 1
              "new").2.notes[i]? = some new ∧
          new.id = old.id ∧ new.video_id = old.video_id ∧
          new.timestamp = old.timestamp ∧ new.created_at = old.created_at ∧
          (old.id ≠ 1 → new.note_text = old.note_text) ∧
          (old.id = 1 → new.note_text = "new")) :=
  ⟨⟨⟨1, "v", 0, "old", 7⟩, List.mem_cons_self _ _, rfl⟩,
    update_note_frame ⟨[⟨1, "v", 0, "old", 7⟩], 2, 9⟩ 1 "new"
      ⟨⟨1, "v", 0, "old", 7⟩, List.mem_cons_self _ _, rfl⟩⟩

/-- C7: updating a nonexistent id yields the not-found error and leaves the
table unchanged; updating an existing id (unique, as the primary key
guarantees) succeeds and returns the full updated row — the matched row's
`id`, `video_id`, `timestamp` and `created_at` with the new `note_text`. -/
theorem update_note_result (db : DB) (nid : Nat) (txt : String) :
    ((∀ n ∈ db.notes, n.id ≠ nid) →
      (update_note db nid txt).1 = Except.error "Note not found" ∧
      (update_note db nid txt).2 = db) ∧
    (∀ m ∈ db.notes, m.id = nid →
      db.notes.Pairwise (fun a b : Note => a.id ≠ b.id) →
      (update_note db nid txt).1 =
        Except.ok ⟨m.id, m.video_id, m.timestamp, txt, m.created_at⟩) := by
  constructor
  · intro h
    have hfind : db.notes.find? (fun n => n.id == nid) = none := by
      rw [List.find?_eq_none]
      intro x hx
      simpa using h x hx
    refine ⟨update_note_fst_of_none db nid txt hfind, ?_⟩
    rw [update_note_snd]
    have hmap : db.notes.map (fun n =>
        if n.id == nid then { n with note_text := txt } else n) = db.notes := by
      have hcongr := List.map_congr_left (l := db.notes)
        (f := fun n => if n.id == nid then { n with note_text := txt } else n)
        (g := id) ?_
      · rw [hcongr, List.map_id]
      · intro a ha
        have hb : (a.id == nid) = false := by simpa using h a ha
        simp [hb]
    rw [hmap]
  · intro m hm hid hu
    have hfind : (db.notes.find? (fun n => n.id == nid)).isSome := by
      rw [List.find?_isSome]
      exact ⟨m, hm, by simpa using hid⟩
    obtain ⟨m', hm'⟩ := Option.isSome_iff_exists.mp hfind
    have hpm' : m'.id = nid := by
      have := List.find?_some hm'
      simpa using this
    have hmem' : m' ∈ db.notes := List.mem_of_find?_eq_some hm'
    have heq : m' = m := mem_id_unique hu hmem' hm (by rw [hpm', hid])
    rw [update_note_fst_of_find db nid txt m' hm', heq]

/-- C4: the delete operation signals not-found exactly when no row carries
the given id; in that case the table is unchanged; on success the result
table is a sublist of the original (rows keep order and content) holding
precisely the rows whose id differs. -/
theorem delete_note_spec (db : DB) (nid : Nat) :
    ((delete_note db nid).1 = Except.error "Note not found" ↔
      ∀ n ∈ db.notes, n.id ≠ nid) ∧
    ((∀ n ∈ db.notes, n.id ≠ nid) → (delete_note db nid).2 = db) ∧
    (delete_note db nid).2.notes.Sublist db.notes ∧
    (∀ n : Note,
      n ∈ (delete_note db nid).2.notes ↔ n ∈ db.notes ∧ n.id ≠ nid) := by
  refine ⟨?_, ?_, ?_, ?_⟩
  · constructor
    · intro herr
      by_contra hnot
      have hne : ¬ (db.notes.length -
          (db.notes.filter (fun n => !(n.id == nid))).length = 0) := by
        intro h0
        exact hnot ((filter_keep_iff db.notes nid).mp h0)
      have : (delete_note db nid).1 = Except.ok "Note deleted successfully" := by
        unfold delete_note
        dsimp only
        rw [if_neg hne]
      rw [this] at herr
      cases herr
    · intro h
      have h0 := (filter_keep_iff db.notes nid).mpr h
      unfold delete_note
      dsimp only
      rw [if_pos h0]
  · intro h
    have hself : db.notes.filter (fun n => !(n.id == nid)) = db.notes := by
      rw [List.filter_eq_self]
      intro a ha
      simpa using h a ha
    rw [delete_note_snd, hself]
  · rw [delete_note_snd]
    exact List.filter_sublist db.notes
  · intro n
    rw [delete_note_snd]
    show n ∈ db.notes.filter (fun n => !(n.id == nid)) ↔ _
    rw [List.mem_filter]
    simp

/-- The single-row table used to refute the unrestricted reading of the
search claim. -/
def wildcardNote : Note := ⟨1, "v", 0, "a", 0⟩

/-- C2 counterexample: the claim quantifies over every query string, but the
code passes the query into `ILIKE` unescaped.  For the query `"_"` on a
table whose only note has text `"a"`, the search returns that note even
though `"_"` does not occur in `"a"` as a (case-insensitive) substring:
`_` is the single-character wildcard of the pattern matcher. -/
theorem search_notes_wildcard_cex :
    search_notes ⟨[wildcardNote], 2, 1⟩ "_" = [wildcardNote] ∧
    ¬ ciContains "_".data wildcardNote.note_text.data := by
  constructor
  · decide
  · rw [ciContains_iff]
    decide

/-- C2 (amended): for every query string free of the `ILIKE`
metacharacters `%`, `_` and `\`, the search returns exactly the notes whose
`note_text` contains the query as a case-insensitive substring, ordered
descending by `created_at`; when such a query occurs in exactly one note of
a table with distinct ids, exactly that note is returned. -/
theorem search_notes_spec (db : DB) (q : String)
    (hq : ∀ c ∈ q.data, c ≠ '%' ∧ c ≠ '_' ∧ c ≠ '\\') :
    List.Perm (search_notes db q)
      (db.notes.filter
        (fun n => decide (ciContains q.data n.note_text.data))) ∧
    List.Sorted (fun a b : Note => b.created_at ≤ a.created_at)
      (search_notes db q) ∧
    (∀ m ∈ db.notes,
      db.notes.Pairwise (fun a b : Note => a.id ≠ b.id) →
      ciContains q.data m.note_text.data →
      (∀ n ∈ db.notes, n ≠ m → ¬ ciContains q.data n.note_text.data) →
      search_notes db q = [m]) := by
  have hpred : ∀ n : Note,
      ilikeMatch ('%' :: q.data ++ ['%']) n.note_text.data =
        decide (ciContains q.data n.note_text.data) := by
    intro n
    rw [Bool.eq_iff_iff, decide_eq_true_iff]
    exact ilikeMatch_pattern_iff q.data n.note_text.data hq
  have hfe : db.notes.filter
        (fun n => ilikeMatch ('%' :: q.data ++ ['%']) n.note_text.data) =
      db.notes.filter
        (fun n => decide (ciContains q.data n.note_text.data)) :=
    List.filter_congr (fun x _ => hpred x)
  have hperm : List.Perm (search_notes db q)
      (db.notes.filter
        (fun n => decide (ciContains q.data n.note_text.data))) := by
    unfold search_notes
    refine (List.perm_insertionSort _ _).trans ?_
    rw [hfe]
  refine ⟨hperm, List.sorted_insertionSort _ _, ?_⟩
  intro m hm hu hcm hothers
  have hall : ∀ x ∈ db.notes.filter
      (fun n => decide (ciContains q.data n.note_text.data)), x = m := by
    intro x hx
    rcases List.mem_filter.mp hx with ⟨hxm, hxp⟩
    by_contra hne
    exact (hothers x hxm hne) (decide_eq_true_iff.mp hxp)
  have hmf : m ∈ db.notes.filter
      (fun n => decide (ciContains q.data n.note_text.data)) :=
    List.mem_filter.mpr ⟨hm, decide_eq_true hcm⟩
  have hnodup : db.notes.Nodup :=
    hu.imp (fun h heq => h (congrArg Note.id heq))
  have hcount1 : List.count m db.notes = 1 :=
    List.count_eq_one_of_mem hnodup hm
  have hrepl : db.notes.filter
        (fun n => decide (ciContains q.data n.note_text.data)) =
      List.replicate (db.notes.filter
        (fun n => decide (ciContains q.data n.note_text.data))).length m :=
    List.eq_replicate_iff.mpr ⟨rfl, hall⟩
  have hcle : List.count m (db.notes.filter
        (fun n => decide (ciContains q.data n.note_text.data))) ≤
      List.count m db.notes :=
    List.Sublist.count_le (List.filter_sublist db.notes) m
  have hcf : List.count m (db.notes.filter
        (fun n => decide (ciContains q.data n.note_text.data))) =
      (db.notes.filter
        (fun n => decide (ciContains q.data n.note_text.data))).length := by
    conv_lhs => rw [hrepl]
    rw [List.count_replicate]
    rw [if_pos (beq_self_eq_true m)]
  have hlen1 : (db.notes.filter
      (fun n => decide (ciContains q.data n.note_text.data))).length = 1 := by
    have hge : 1 ≤ (db.notes.filter
        (fun n => decide (ciContains q.data n.note_text.data))).length :=
      List.length_pos.mpr (List.ne_nil_of_mem hmf)
    omega
  have hfm : db.notes.filter
      (fun n => decide (ciContains q.data n.note_text.data)) = [m] := by
    rw [hrepl, hlen1, List.replicate_one]
  rw [← List.perm_singleton]
  rw [hfm] at hperm
  exact hperm

/-- Witness for C2 (amended) at a concrete input: one note whose text
contains the case-varied query. -/
theorem search_notes_spec_witness :
    (∀ c ∈ "WORLD".data, c ≠ '%' ∧ c ≠ '_' ∧ c ≠ '\\') ∧
    search_notes ⟨[⟨1, "v", 0, "Hello world", 3⟩], 2, 9⟩ "WORLD" =
      [⟨1, "v", 0, "Hello world", 3⟩] := by
  refine ⟨by decide, ?_⟩
  refine (search_notes_spec ⟨[⟨1, "v", 0, "Hello world", 3⟩], 2, 9⟩ "WORLD"
    (by decide)).2.2 ⟨1, "v", 0, "Hello world", 3⟩
    (List.mem_cons_self _ _) (by decide) ?_ ?_
  · rw [ciContains_iff]
    decide
  · intro n hn hne
    rcases List.mem_cons.mp hn with rfl | h0
    · exact absurd rfl hne
    · cases h0

/-- C5: the recent-videos view returns one entry per distinct `video_id`
(capped at 20, so 25 distinct ids yield exactly 20 entries), ordered
descending by the group's latest `created_at`; each entry carries the
note count of its group and the maximum `created_at` of its group, which
is attained by some note. -/
theorem get_recent_videos_spec (db : DB) :
    (get_recent_videos db).length =
      min ((db.notes.map Note.video_id).toFinset.card) 20 ∧
    List.Sorted (fun a b : VideoSummary => b.last_note_at ≤ a.last_note_at)
      (get_recent_videos db) ∧
    ((get_recent_videos db).map VideoSummary.video_id).Nodup ∧
    ∀ s ∈ get_recent_videos db,
      (∃ n ∈ db.notes, n.video_id = s.video_id) ∧
      s.note_count =
        (db.notes.filter (fun n => n.video_id == s.video_id)).length ∧
      (∀ n ∈ db.notes, n.video_id = s.video_id →
        n.created_at ≤ s.last_note_at) ∧
      (∃ n ∈ db.notes, n.video_id = s.video_id ∧
        n.created_at = s.last_note_at) := by
  have hre : get_recent_videos db =
      (List.insertionSort
        (fun a b : VideoSummary => b.last_note_at ≤ a.last_note_at)
        (((db.notes.map Note.video_id).dedup).map (videoGroup db))).take 20 :=
    rfl
  have hperm := List.perm_insertionSort
    (fun a b : VideoSummary => b.last_note_at ≤ a.last_note_at)
    (((db.notes.map Note.video_id).dedup).map (videoGroup db))
  refine ⟨?_, ?_, ?_, ?_⟩
  · rw [hre, List.length_take, hperm.length_eq, List.length_map,
      List.card_toFinset]
    exact Nat.min_comm 20 _
  · rw [hre]
    exact List.Pairwise.sublist (List.take_sublist 20 _)
      (List.sorted_insertionSort _ _)
  · rw [hre, List.map_take]
    refine List.Sublist.nodup (List.take_sublist 20 _) ?_
    have hmg : List.map VideoSummary.video_id
        (((db.notes.map Note.video_id).dedup).map (videoGroup db)) =
        (db.notes.map Note.video_id).dedup := by
      rw [List.map_map]
      have h1 : ((db.notes.map Note.video_id).dedup).map
          (VideoSummary.video_id ∘ videoGroup db) =
          ((db.notes.map Note.video_id).dedup).map id :=
        List.map_congr_left (fun a _ => rfl)
      rw [h1, List.map_id]
    refine ((hperm.map VideoSummary.video_id).nodup_iff).mpr ?_
    rw [hmg]
    exact List.nodup_dedup _
  · intro s hs
    rw [hre] at hs
    have hs1 := List.take_subset 20 _ hs
    have hs2 : s ∈ ((db.notes.map Note.video_id).dedup).map (videoGroup db) :=
      hperm.mem_iff.mp hs1
    rcases List.mem_map.mp hs2 with ⟨v, hv, hvs⟩
    subst hvs
    rcases List.mem_map.mp (List.mem_dedup.mp hv) with ⟨n0, hn0, hn0v⟩
    have hn0g : n0 ∈ db.notes.filter (fun n => n.video_id == v) :=
      List.mem_filter.mpr ⟨hn0, by simpa using hn0v⟩
    refine ⟨⟨n0, hn0, hn0v⟩, rfl, ?_, ?_⟩
    · intro n hn hnv
      have hng : n ∈ db.notes.filter (fun n => n.video_id == v) :=
        List.mem_filter.mpr ⟨hn, by simpa using hnv⟩
      exact le_foldl_max _ 0 n.created_at
        (List.mem_map_of_mem Note.created_at hng)
    · rcases foldl_max_mem
        ((db.notes.filter (fun n => n.video_id == v)).map Note.created_at) 0
        with h0 | hmem
      · refine ⟨n0, hn0, hn0v, ?_⟩
        have hle := le_foldl_max
          ((db.notes.filter (fun n => n.video_id == v)).map Note.created_at) 0
          n0.created_at (List.mem_map_of_mem Note.created_at hn0g)
        show n0.created_at =
          ((db.notes.filter (fun n => n.video_id == v)).map
            Note.created_at).foldl Nat.max 0
        omega
      · rcases List.mem_map.mp hmem with ⟨n1, hn1g, hn1c⟩
        rcases List.mem_filter.mp hn1g with ⟨hn1, hn1v⟩
        exact ⟨n1, hn1, by simpa using hn1v, hn1c⟩
